import Mathlib

/-!
# Verification of the pngme chunk core (`src/chunk.rs`)

A shallow embedding of the `Chunk` record of the pngme repository:
a length-prefixed, CRC-32-checksummed record of a 4-byte type code and a
payload.  Bytes are modelled as `Nat` (values `< 256` where Rust's `u8`
typing guarantees it), byte buffers as `List Nat`, and `u32` arithmetic
as `Nat` with explicit reduction modulo `2 ^ 32` where Rust truncates.

`Chunk::try_from(&[u8])` is modelled by `Chunk.tryFrom`, whose result type
has a third constructor `panicked` for the `.expect(...)` call the source
performs on the length-field conversion (which aborts the process instead
of returning an error value when the input holds fewer than 4 bytes).
-/

set_option maxRecDepth 8000

namespace Pngme

/-- A byte is an ASCII letter (`A`-`Z` or `a`-`z`). -/
def isAsciiAlpha (b : Nat) : Bool :=
  (65 ≤ b && b ≤ 90) || (97 ≤ b && b ≤ 122)

/-- The error kinds a chunk parse can surface, following the spec's
`ChunkError` taxonomy.  In the source all three are distinct values of
`Box<dyn Error>`: the two `try_into` slice-conversion failures
(`truncated`), the `ChunkType::try_from` failure (`invalidType`), and the
`Error::from("Invalid CRC")` value (`checksumMismatch`). -/
inductive ChunkError where
  | truncated
  | invalidType
  | checksumMismatch
deriving DecidableEq

/-- The 4-byte chunk type code.  `chunk_type.rs` is not under `src/`;
the shape (4 raw bytes, no further state) is taken from the spec's
TypeCode data model. -/
structure ChunkType where
  b0 : Nat
  b1 : Nat
  b2 : Nat
  b3 : Nat
deriving DecidableEq

/-- The 4 raw bytes of a type code, in order (`ChunkType::bytes`). -/
def ChunkType.bytes (ct : ChunkType) : List Nat :=
  [ct.b0, ct.b1, ct.b2, ct.b3]

/-- Modelled from the spec: `ChunkType::try_from([u8; 4])` from the missing
`src/chunk_type.rs` — "fails with `TypeError::NonAlphabetic` if any byte is
not an ASCII letter. Succeeds otherwise regardless of the reserved bit".
The error is collapsed to `ChunkError.invalidType`, the kind under which
`Chunk::try_from` propagates it. -/
def ChunkType.tryFrom (bs : List Nat) : Except ChunkError ChunkType :=
  match bs with
  | [a, b, c, d] =>
      if isAsciiAlpha a && isAsciiAlpha b && isAsciiAlpha c && isAsciiAlpha d then
        .ok ⟨a, b, c, d⟩
      else
        .error .invalidType
  | _ => .error .invalidType

/-- One reflected CRC-32 bit step: shift right, conditionally xor the
reflected ISO-HDLC polynomial `0xEDB88320`. -/
def crc32Round (c : Nat) : Nat :=
  if c % 2 = 1 then (c / 2) ^^^ 0xEDB88320 else c / 2

/-- Absorb one byte into a running CRC-32 state (8 bit steps). -/
def crc32Byte (c b : Nat) : Nat :=
  crc32Round (crc32Round (crc32Round (crc32Round
    (crc32Round (crc32Round (crc32Round (crc32Round (c ^^^ (b % 256)))))))))

/-- CRC-32/ISO-HDLC of a byte sequence: init `0xFFFFFFFF`, reflected
polynomial, final xor `0xFFFFFFFF`.  Models the `crc` crate's
`Crc::<u32>::new(&CRC_32_ISO_HDLC).checksum`. -/
def crc32 (bs : List Nat) : Nat :=
  (bs.foldl crc32Byte 0xFFFFFFFF) ^^^ 0xFFFFFFFF

/-- Big-endian bytes of a `u32` (`u32::to_be_bytes`). -/
def u32ToBeBytes (n : Nat) : List Nat :=
  [n / 16777216 % 256, n / 65536 % 256, n / 256 % 256, n % 256]

/-- `u32::from_be_bytes` on a 4-byte list (the callers guard the length;
the default is never reached there). -/
def fromBe4 (bs : List Nat) : Nat :=
  match bs with
  | [a, b, c, d] => ((a * 256 + b) * 256 + c) * 256 + d
  | _ => 0

/-- The `Chunk` struct of `src/chunk.rs`: declared length, type code,
payload bytes, stored CRC. -/
structure Chunk where
  length : Nat
  chunk_type : ChunkType
  data : List Nat
  crc : Nat
deriving DecidableEq

/-- `Chunk::get_bytes_for_crc`: type-code bytes followed by payload. -/
def Chunk.get_bytes_for_crc (ct : ChunkType) (data : List Nat) : List Nat :=
  ct.bytes ++ data

/-- `Chunk::new`: length is `data.len() as u32` (truncating modulo
`2 ^ 32`), CRC computed over type bytes ++ payload. -/
def Chunk.new (ct : ChunkType) (data : List Nat) : Chunk :=
  { length := data.length % 4294967296
    chunk_type := ct
    data := data
    crc := crc32 (Chunk.get_bytes_for_crc ct data) }

/-- `Chunk::as_bytes`: big-endian length, type bytes, payload, big-endian
CRC. -/
def Chunk.as_bytes (c : Chunk) : List Nat :=
  u32ToBeBytes c.length ++ c.chunk_type.bytes ++ c.data ++ u32ToBeBytes c.crc

/-- Outcome of `Chunk::try_from`: a chunk, a typed error value, or a
process-terminating panic (from the `.expect` on the length field). -/
inductive ParseResult where
  | ok (c : Chunk)
  | err (e : ChunkError)
  | panicked
deriving DecidableEq

/-- The tail of `Chunk::try_from` after length and type code have been
read: take `length` payload bytes from what remains of the iterator, then
4 CRC bytes (failing as the slice conversion does when fewer remain), and
compare the recomputed CRC with the stored one. -/
def Chunk.parseAfterType (length : Nat) (ct : ChunkType) (rest2 : List Nat) :
    ParseResult :=
  if ((rest2.drop length).take 4).length = 4 then
    if crc32 (Chunk.get_bytes_for_crc ct (rest2.take length)) =
        fromBe4 ((rest2.drop length).take 4) then
      .ok ⟨length, ct, rest2.take length, fromBe4 ((rest2.drop length).take 4)⟩
    else
      .err .checksumMismatch
  else
    .err .truncated

/-- `Chunk::try_from(&[u8])`: 4-byte big-endian length (its slice
conversion is followed by `.expect`, i.e. a panic when fewer than 4 bytes
exist), 4 type-code bytes (conversion failure propagated as an error),
type-code validation, then `Chunk.parseAfterType`.  `take`/`drop` model
the by-ref iterator consumption of the source. -/
def Chunk.tryFrom (value : List Nat) : ParseResult :=
  if (value.take 4).length = 4 then
    if ((value.drop 4).take 4).length = 4 then
      match ChunkType.tryFrom ((value.drop 4).take 4) with
      | .error e => .err e
      | .ok ct =>
          Chunk.parseAfterType (fromBe4 (value.take 4)) ct ((value.drop 4).drop 4)
    else
      .err .truncated
  else
    .panicked

/-- Modelled from the spec: the UTF-8 validation performed by Rust's
`String::from_utf8`, which `Chunk::data_as_string` delegates to ("fails if
the payload is not valid UTF-8 text").  Decodes a byte sequence into the
list of Unicode code points it encodes, rejecting truncated sequences,
stray continuation bytes, overlong forms, surrogate code points and
values above `U+10FFFF`; returns `none` exactly when Rust's
`String::from_utf8` returns `Err`. -/
def utf8Decode : List Nat → Option (List Nat)
  | [] => some []
  | b1 :: rest =>
    if b1 < 128 then
      (utf8Decode rest).map (fun cs => b1 :: cs)
    else if b1 < 192 then none
    else
      match rest with
      | [] => none
      | b2 :: rest2 =>
          if b1 < 224 then
            if 128 ≤ b2 ∧ b2 < 192 then
              if 128 ≤ (b1 - 192) * 64 + (b2 - 128) then
                (utf8Decode rest2).map (fun cs => ((b1 - 192) * 64 + (b2 - 128)) :: cs)
              else none
            else none
          else
            match rest2 with
            | [] => none
            | b3 :: rest3 =>
                if b1 < 240 then
                  if (128 ≤ b2 ∧ b2 < 192) ∧ (128 ≤ b3 ∧ b3 < 192) then
                    if 2048 ≤ (b1 - 224) * 4096 + (b2 - 128) * 64 + (b3 - 128) ∧
                        ¬(55296 ≤ (b1 - 224) * 4096 + (b2 - 128) * 64 + (b3 - 128) ∧
                          (b1 - 224) * 4096 + (b2 - 128) * 64 + (b3 - 128) ≤ 57343) then
                      (utf8Decode rest3).map
                        (fun cs => ((b1 - 224) * 4096 + (b2 - 128) * 64 + (b3 - 128)) :: cs)
                    else none
                  else none
                else
                  match rest3 with
                  | [] => none
                  | b4 :: rest4 =>
                      if b1 < 248 then
                        if (128 ≤ b2 ∧ b2 < 192) ∧ (128 ≤ b3 ∧ b3 < 192) ∧
                            (128 ≤ b4 ∧ b4 < 192) then
                          if 65536 ≤ (b1 - 240) * 262144 + (b2 - 128) * 4096 +
                                (b3 - 128) * 64 + (b4 - 128) ∧
                              (b1 - 240) * 262144 + (b2 - 128) * 4096 +
                                (b3 - 128) * 64 + (b4 - 128) ≤ 1114111 then
                            (utf8Decode rest4).map
                              (fun cs => ((b1 - 240) * 262144 + (b2 - 128) * 4096 +
                                (b3 - 128) * 64 + (b4 - 128)) :: cs)
                          else none
                        else none
                      else none

/-- `Chunk::data_as_string`: `String::from_utf8(self.data.clone())`,
returning the decoded text (as its code points) on success. -/
def Chunk.data_as_string (c : Chunk) : Option (List Nat) :=
  utf8Decode c.data

/-- A Unicode scalar value: at most `U+10FFFF` and not a surrogate. -/
def isScalarValue (cp : Nat) : Prop :=
  cp ≤ 1114111 ∧ ¬(55296 ≤ cp ∧ cp ≤ 57343)

instance (cp : Nat) : Decidable (isScalarValue cp) := by
  unfold isScalarValue
  infer_instance

/-- The standard (shortest-form) UTF-8 encoding of one scalar value. -/
def utf8EncodeChar (cp : Nat) : List Nat :=
  if cp < 128 then [cp]
  else if cp < 2048 then [192 + cp / 64, 128 + cp % 64]
  else if cp < 65536 then [224 + cp / 4096, 128 + cp / 64 % 64, 128 + cp % 64]
  else [240 + cp / 262144, 128 + cp / 4096 % 64, 128 + cp / 64 % 64, 128 + cp % 64]

/-- A byte sequence is valid UTF-8 text: it is the standard encoding of
some sequence of Unicode scalar values.  This is the specification-side
notion against which the decoder is verified. -/
def ValidUtf8 (bs : List Nat) : Prop :=
  ∃ cps : List Nat, (∀ cp ∈ cps, isScalarValue cp) ∧
    (cps.map utf8EncodeChar).flatten = bs

/-- The type-code bytes `"RuSt"` used by the source's tests. -/
def testTypeBytes : List Nat := [82, 117, 83, 116]

/-- The 42 payload bytes of `"This is where your secret message will be!"`
used by the source's tests. -/
def testMessageBytes : List Nat :=
  [84, 104, 105, 115, 32, 105, 115, 32, 119, 104, 101, 114, 101, 32, 121,
   111, 117, 114, 32, 115, 101, 99, 114, 101, 116, 32, 109, 101, 115, 115,
   97, 103, 101, 32, 119, 105, 108, 108, 32, 98, 101, 33]

/-- The valid test buffer of `test_valid_chunk_from_bytes`: big-endian 42,
`"RuSt"`, the 42-byte payload, big-endian 2882656334. -/
def testChunkBytes : List Nat :=
  u32ToBeBytes 42 ++ testTypeBytes ++ testMessageBytes ++ u32ToBeBytes 2882656334

/-- The buffer of `test_invalid_chunk_from_bytes`: as `testChunkBytes` but
with trailing checksum field 2882656333. -/
def testChunkBytesBadCrc : List Nat :=
  u32ToBeBytes 42 ++ testTypeBytes ++ testMessageBytes ++ u32ToBeBytes 2882656333

/-! ## Helper lemmas -/

theorem crc32Round_lt {c : Nat} (h : c < 4294967296) : crc32Round c < 4294967296 := by
  unfold crc32Round
  have h2 : c / 2 < 4294967296 := by omega
  have e : (4294967296 : Nat) = 2 ^ 32 := by norm_num
  split
  · rw [e] at h2 ⊢
    exact Nat.xor_lt_two_pow h2 (by norm_num)
  · exact h2

theorem crc32Byte_lt {c : Nat} (b : Nat) (h : c < 4294967296) :
    crc32Byte c b < 4294967296 := by
  unfold crc32Byte
  have e : (4294967296 : Nat) = 2 ^ 32 := by norm_num
  have h0 : c ^^^ (b % 256) < 4294967296 := by
    rw [e]
    exact Nat.xor_lt_two_pow (e ▸ h) (by omega)
  exact crc32Round_lt (crc32Round_lt (crc32Round_lt (crc32Round_lt
    (crc32Round_lt (crc32Round_lt (crc32Round_lt (crc32Round_lt h0)))))))

theorem crc32_foldl_lt (bs : List Nat) :
    ∀ c : Nat, c < 4294967296 → bs.foldl crc32Byte c < 4294967296 := by
  induction bs with
  | nil => intro c h; simpa using h
  | cons b t ih =>
      intro c h
      simpa using ih (crc32Byte c b) (crc32Byte_lt b h)

theorem crc32_lt (bs : List Nat) : crc32 bs < 4294967296 := by
  unfold crc32
  have h1 : bs.foldl crc32Byte 4294967295 < 4294967296 := crc32_foldl_lt bs _ (by omega)
  have e : (4294967296 : Nat) = 2 ^ 32 := by norm_num
  rw [e] at h1 ⊢
  exact Nat.xor_lt_two_pow h1 (by norm_num)

theorem fromBe4_u32ToBeBytes {n : Nat} (h : n < 4294967296) :
    fromBe4 (u32ToBeBytes n) = n := by
  simp only [u32ToBeBytes, fromBe4]
  omega

theorem fromBe4_lt {l : List Nat} (h : ∀ b ∈ l, b < 256) : fromBe4 l < 4294967296 := by
  unfold fromBe4
  split
  · next a b c d =>
      have ha := h a (by simp)
      have hb := h b (by simp)
      have hc := h c (by simp)
      have hd := h d (by simp)
      omega
  · omega

theorem ChunkType.tryFrom_bytes (ct : ChunkType)
    (h : ct.bytes.all isAsciiAlpha = true) :
    ChunkType.tryFrom ct.bytes = .ok ct := by
  obtain ⟨a, b, c, d⟩ := ct
  simp only [ChunkType.bytes, List.all_cons, List.all_nil, Bool.and_true,
    Bool.and_eq_true] at h
  simp [ChunkType.tryFrom, ChunkType.bytes, h.1, h.2.1, h.2.2.1, h.2.2.2]

theorem ChunkType.tryFrom_ok_inv {bs : List Nat} {ct : ChunkType}
    (h : ChunkType.tryFrom bs = .ok ct) :
    bs = ct.bytes ∧ ct.bytes.all isAsciiAlpha = true := by
  unfold ChunkType.tryFrom at h
  split at h
  · next a b c d =>
      split at h
      · next hcond =>
          cases h
          refine ⟨rfl, ?_⟩
          simp only [Bool.and_eq_true] at hcond
          simp only [ChunkType.bytes, List.all_cons, List.all_nil, Bool.and_true,
            Bool.and_eq_true]
          exact ⟨hcond.1.1.1, hcond.1.1.2, hcond.1.2, hcond.2⟩
      · exact absurd h (by simp)
  · exact absurd h (by simp)

theorem Chunk.parseAfterType_ok_inv {L : Nat} {ct : ChunkType} {r2 : List Nat} {c : Chunk}
    (h : Chunk.parseAfterType L ct r2 = .ok c) :
    c = ⟨L, ct, r2.take L, fromBe4 ((r2.drop L).take 4)⟩ ∧
      L + 4 ≤ r2.length ∧
      crc32 (Chunk.get_bytes_for_crc ct (r2.take L)) = fromBe4 ((r2.drop L).take 4) := by
  unfold Chunk.parseAfterType at h
  split at h
  · next hlen4 =>
      split at h
      · next hcrc =>
          cases h
          refine ⟨rfl, ?_, hcrc⟩
          simp only [List.length_take, List.length_drop] at hlen4
          omega
      · exact absurd h (by simp)
  · exact absurd h (by simp)

theorem Chunk.parseAfterType_exact (ct : ChunkType) (data : List Nat) :
    Chunk.parseAfterType data.length ct
        (data ++ u32ToBeBytes (crc32 (Chunk.get_bytes_for_crc ct data))) =
      .ok ⟨data.length, ct, data, crc32 (Chunk.get_bytes_for_crc ct data)⟩ := by
  unfold Chunk.parseAfterType
  rw [List.drop_left, List.take_left]
  rw [show (u32ToBeBytes (crc32 (Chunk.get_bytes_for_crc ct data))).take 4 =
      u32ToBeBytes (crc32 (Chunk.get_bytes_for_crc ct data)) from rfl]
  rw [fromBe4_u32ToBeBytes (crc32_lt _)]
  simp [u32ToBeBytes]

theorem Chunk.tryFrom_as_bytes_of (c : Chunk)
    (hlen : c.length = c.data.length)
    (h32 : c.length < 4294967296)
    (halpha : c.chunk_type.bytes.all isAsciiAlpha = true)
    (hcrc : c.crc = crc32 (Chunk.get_bytes_for_crc c.chunk_type c.data)) :
    Chunk.tryFrom c.as_bytes = .ok c := by
  rw [Chunk.tryFrom]
  rw [if_pos (show (c.as_bytes.take 4).length = 4 from rfl)]
  rw [if_pos (show ((c.as_bytes.drop 4).take 4).length = 4 from rfl)]
  rw [show (c.as_bytes.drop 4).take 4 = c.chunk_type.bytes from rfl]
  rw [ChunkType.tryFrom_bytes c.chunk_type halpha]
  rw [show c.as_bytes.take 4 = u32ToBeBytes c.length from rfl]
  rw [show (c.as_bytes.drop 4).drop 4 = c.data ++ u32ToBeBytes c.crc from rfl]
  rw [fromBe4_u32ToBeBytes h32]
  conv_rhs => rw [show c = ⟨c.length, c.chunk_type, c.data, c.crc⟩ from rfl]
  rw [hlen, hcrc]
  exact Chunk.parseAfterType_exact c.chunk_type c.data

theorem Chunk.tryFrom_ok_facts {bs : List Nat} {c : Chunk}
    (h : Chunk.tryFrom bs = .ok c) :
    c.length = c.data.length ∧
      c.chunk_type.bytes.all isAsciiAlpha = true ∧
      c.crc = crc32 (Chunk.get_bytes_for_crc c.chunk_type c.data) ∧
      c.length = fromBe4 (bs.take 4) ∧
      12 + c.data.length ≤ bs.length := by
  unfold Chunk.tryFrom at h
  split at h
  · next h4 =>
      split at h
      · next h8 =>
          split at h
          · exact absurd h (by simp)
          · next ct heq =>
              obtain ⟨hc, hle, hcrc⟩ := Chunk.parseAfterType_ok_inv h
              obtain ⟨hbytes, halpha⟩ := ChunkType.tryFrom_ok_inv heq
              subst hc
              have h4' : 4 ≤ bs.length := by
                simp only [List.length_take] at h4
                omega
              have h8' : 8 ≤ bs.length := by
                simp only [List.length_take, List.length_drop] at h8
                omega
              have hle' : fromBe4 (bs.take 4) + 4 ≤ bs.length - 4 - 4 := by
                simpa only [List.length_drop] using hle
              have hdla : (((bs.drop 4).drop 4).take (fromBe4 (bs.take 4))).length =
                  fromBe4 (bs.take 4) := by
                simp only [List.length_take, List.length_drop]
                omega
              refine ⟨hdla.symm, halpha, hcrc.symm, rfl, ?_⟩
              show 12 + (((bs.drop 4).drop 4).take (fromBe4 (bs.take 4))).length ≤ bs.length
              rw [hdla]
              omega
      · exact absurd h (by simp)
  · exact absurd h (by simp)

theorem Chunk.parseAfterType_append {L : Nat} {ct : ChunkType} {r2 : List Nat} {c : Chunk}
    (extra : List Nat) (h : Chunk.parseAfterType L ct r2 = .ok c) :
    Chunk.parseAfterType L ct (r2 ++ extra) = .ok c := by
  obtain ⟨-, hle, -⟩ := Chunk.parseAfterType_ok_inv h
  unfold Chunk.parseAfterType
  rw [List.take_append_of_le_length (by omega),
    List.drop_append_of_le_length (by omega),
    List.take_append_of_le_length (by simp only [List.length_drop]; omega)]
  exact h

theorem Chunk.tryFrom_append {bs : List Nat} {c : Chunk} (extra : List Nat)
    (h : Chunk.tryFrom bs = .ok c) :
    Chunk.tryFrom (bs ++ extra) = .ok c := by
  have hlen := (Chunk.tryFrom_ok_facts h).2.2.2.2
  have h8 : 8 ≤ bs.length := by omega
  unfold Chunk.tryFrom at h ⊢
  rw [List.take_append_of_le_length (by omega),
    List.drop_append_of_le_length (by omega),
    List.take_append_of_le_length (by simp only [List.length_drop]; omega),
    List.drop_append_of_le_length (by simp only [List.length_drop]; omega)]
  split at h
  · next h4 =>
      rw [if_pos h4]
      split at h
      · next h44 =>
          rw [if_pos h44]
          split at h
          · exact absurd h (by simp)
          · next ct heq =>
              exact Chunk.parseAfterType_append extra h
      · exact absurd h (by simp)
  · exact absurd h (by simp)

theorem ChunkType.tryFrom_of_len4_alpha {bs : List Nat} (hlen : bs.length = 4)
    (halpha : bs.all isAsciiAlpha = true) :
    ∃ ct : ChunkType, ChunkType.tryFrom bs = .ok ct := by
  match bs, hlen with
  | [a, b, c, d], _ =>
      refine ⟨⟨a, b, c, d⟩, ?_⟩
      simp only [List.all_cons, List.all_nil, Bool.and_true, Bool.and_eq_true] at halpha
      simp [ChunkType.tryFrom, halpha.1, halpha.2.1, halpha.2.2.1, halpha.2.2.2]

theorem Chunk.parseAfterType_truncated {L : Nat} {ct : ChunkType} {r2 : List Nat}
    (h : r2.length < L + 4) :
    Chunk.parseAfterType L ct r2 = .err .truncated := by
  unfold Chunk.parseAfterType
  rw [if_neg]
  simp only [List.length_take, List.length_drop]
  omega

/-! ## UTF-8 lemmas -/

theorem utf8EncodeChar_one {b1 : Nat} (h : b1 < 128) : utf8EncodeChar b1 = [b1] := by
  simp [utf8EncodeChar, h]

theorem utf8EncodeChar_two {b1 b2 : Nat} (h1 : 192 ≤ b1) (h1' : b1 < 224)
    (h2 : 128 ≤ b2) (h2' : b2 < 192) (hge : 128 ≤ (b1 - 192) * 64 + (b2 - 128)) :
    utf8EncodeChar ((b1 - 192) * 64 + (b2 - 128)) = [b1, b2] := by
  unfold utf8EncodeChar
  rw [if_neg (by omega), if_pos (by omega)]
  simp only [List.cons.injEq, and_true]
  omega

theorem utf8EncodeChar_three {b1 b2 b3 : Nat} (h1 : 224 ≤ b1) (h1' : b1 < 240)
    (h2 : 128 ≤ b2) (h2' : b2 < 192) (h3 : 128 ≤ b3) (h3' : b3 < 192)
    (hge : 2048 ≤ (b1 - 224) * 4096 + (b2 - 128) * 64 + (b3 - 128)) :
    utf8EncodeChar ((b1 - 224) * 4096 + (b2 - 128) * 64 + (b3 - 128)) = [b1, b2, b3] := by
  unfold utf8EncodeChar
  rw [if_neg (by omega), if_neg (by omega), if_pos (by omega)]
  simp only [List.cons.injEq, and_true]
  omega

theorem utf8EncodeChar_four {b1 b2 b3 b4 : Nat} (h1 : 240 ≤ b1) (h1' : b1 < 248)
    (h2 : 128 ≤ b2) (h2' : b2 < 192) (h3 : 128 ≤ b3) (h3' : b3 < 192)
    (h4 : 128 ≤ b4) (h4' : b4 < 192)
    (hge : 65536 ≤ (b1 - 240) * 262144 + (b2 - 128) * 4096 + (b3 - 128) * 64 + (b4 - 128)) :
    utf8EncodeChar ((b1 - 240) * 262144 + (b2 - 128) * 4096 + (b3 - 128) * 64 + (b4 - 128)) =
      [b1, b2, b3, b4] := by
  unfold utf8EncodeChar
  rw [if_neg (by omega), if_neg (by omega), if_neg (by omega)]
  simp only [List.cons.injEq, and_true]
  omega

theorem utf8Decode_sound :
    ∀ (n : Nat) (bs : List Nat), bs.length ≤ n → ∀ cps : List Nat,
      utf8Decode bs = some cps →
      (∀ cp ∈ cps, isScalarValue cp) ∧ (cps.map utf8EncodeChar).flatten = bs := by
  intro n
  induction n with
  | zero =>
      intro bs hbs cps h
      match bs, hbs with
      | [], _ =>
          rw [utf8Decode.eq_def] at h
          dsimp only at h
          injection h with h'
          subst h'
          simp
  | succ n ih =>
      intro bs hbs cps h
      match bs with
      | [] =>
          rw [utf8Decode.eq_def] at h
          dsimp only at h
          injection h with h'
          subst h'
          simp
      | b1 :: rest =>
          rw [utf8Decode.eq_def] at h
          dsimp only at h
          by_cases c1 : b1 < 128
          · rw [if_pos c1] at h
            obtain ⟨cs, hd, rfl⟩ := Option.map_eq_some'.mp h
            obtain ⟨hall, henc⟩ := ih rest (by simp at hbs; omega) cs hd
            refine ⟨?_, ?_⟩
            · intro cp hcp
              rcases List.mem_cons.mp hcp with rfl | hcp'
              · simp only [isScalarValue]
                omega
              · exact hall cp hcp'
            · simp only [List.map_cons, List.flatten_cons, henc, utf8EncodeChar_one c1]
              rfl
          · rw [if_neg c1] at h
            by_cases c2 : b1 < 192
            · rw [if_pos c2] at h
              exact absurd h (by simp)
            · rw [if_neg c2] at h
              match rest with
              | [] => exact absurd h (by simp)
              | b2 :: rest2 =>
                  dsimp only at h
                  by_cases c3 : b1 < 224
                  · rw [if_pos c3] at h
                    by_cases c4 : 128 ≤ b2 ∧ b2 < 192
                    · rw [if_pos c4] at h
                      by_cases c5 : 128 ≤ (b1 - 192) * 64 + (b2 - 128)
                      · rw [if_pos c5] at h
                        obtain ⟨cs, hd, rfl⟩ := Option.map_eq_some'.mp h
                        obtain ⟨hall, henc⟩ := ih rest2 (by simp at hbs; omega) cs hd
                        refine ⟨?_, ?_⟩
                        · intro cp hcp
                          rcases List.mem_cons.mp hcp with rfl | hcp'
                          · simp only [isScalarValue]
                            omega
                          · exact hall cp hcp'
                        · simp only [List.map_cons, List.flatten_cons, henc,
                            utf8EncodeChar_two (by omega) c3 c4.1 c4.2 c5]
                          rfl
                      · rw [if_neg c5] at h
                        exact absurd h (by simp)
                    · rw [if_neg c4] at h
                      exact absurd h (by simp)
                  · rw [if_neg c3] at h
                    match rest2 with
                    | [] => exact absurd h (by simp)
                    | b3 :: rest3 =>
                        dsimp only at h
                        by_cases c6 : b1 < 240
                        · rw [if_pos c6] at h
                          by_cases c7 : (128 ≤ b2 ∧ b2 < 192) ∧ (128 ≤ b3 ∧ b3 < 192)
                          · rw [if_pos c7] at h
                            by_cases c8 : 2048 ≤ (b1 - 224) * 4096 + (b2 - 128) * 64 +
                                  (b3 - 128) ∧
                                ¬(55296 ≤ (b1 - 224) * 4096 + (b2 - 128) * 64 + (b3 - 128) ∧
                                  (b1 - 224) * 4096 + (b2 - 128) * 64 + (b3 - 128) ≤ 57343)
                            · rw [if_pos c8] at h
                              obtain ⟨cs, hd, rfl⟩ := Option.map_eq_some'.mp h
                              obtain ⟨hall, henc⟩ := ih rest3 (by simp at hbs; omega) cs hd
                              refine ⟨?_, ?_⟩
                              · intro cp hcp
                                rcases List.mem_cons.mp hcp with rfl | hcp'
                                · obtain ⟨c8a, c8b⟩ := c8
                                  simp only [isScalarValue]
                                  omega
                                · exact hall cp hcp'
                              · simp only [List.map_cons, List.flatten_cons, henc,
                                  utf8EncodeChar_three (by omega) c6 c7.1.1 c7.1.2
                                    c7.2.1 c7.2.2 c8.1]
                                rfl
                            · rw [if_neg c8] at h
                              exact absurd h (by simp)
                          · rw [if_neg c7] at h
                            exact absurd h (by simp)
                        · rw [if_neg c6] at h
                          match rest3 with
                          | [] => exact absurd h (by simp)
                          | b4 :: rest4 =>
                              dsimp only at h
                              by_cases c9 : b1 < 248
                              · rw [if_pos c9] at h
                                by_cases c10 : (128 ≤ b2 ∧ b2 < 192) ∧ (128 ≤ b3 ∧ b3 < 192) ∧
                                    (128 ≤ b4 ∧ b4 < 192)
                                · rw [if_pos c10] at h
                                  by_cases c11 : 65536 ≤ (b1 - 240) * 262144 +
                                        (b2 - 128) * 4096 + (b3 - 128) * 64 + (b4 - 128) ∧
                                      (b1 - 240) * 262144 + (b2 - 128) * 4096 +
                                        (b3 - 128) * 64 + (b4 - 128) ≤ 1114111
                                  · rw [if_pos c11] at h
                                    obtain ⟨cs, hd, rfl⟩ := Option.map_eq_some'.mp h
                                    obtain ⟨hall, henc⟩ :=
                                      ih rest4 (by simp at hbs; omega) cs hd
                                    refine ⟨?_, ?_⟩
                                    · intro cp hcp
                                      rcases List.mem_cons.mp hcp with rfl | hcp'
                                      · simp only [isScalarValue]
                                        omega
                                      · exact hall cp hcp'
                                    · simp only [List.map_cons, List.flatten_cons, henc,
                                        utf8EncodeChar_four (by omega) c9 c10.1.1 c10.1.2
                                          c10.2.1.1 c10.2.1.2 c10.2.2.1 c10.2.2.2 c11.1]
                                      rfl
                                  · rw [if_neg c11] at h
                                    exact absurd h (by simp)
                                · rw [if_neg c10] at h
                                  exact absurd h (by simp)
                              · rw [if_neg c9] at h
                                exact absurd h (by simp)

theorem utf8Decode_encodeChar (cp : Nat) (h : isScalarValue cp) (rest cps : List Nat)
    (hr : utf8Decode rest = some cps) :
    utf8Decode (utf8EncodeChar cp ++ rest) = some (cp :: cps) := by
  obtain ⟨hmax, hsur⟩ := h
  unfold utf8EncodeChar
  by_cases e1 : cp < 128
  · rw [if_pos e1]
    simp only [List.cons_append, List.nil_append]
    rw [utf8Decode.eq_def]
    dsimp only
    rw [if_pos e1, hr]
    rfl
  · rw [if_neg e1]
    by_cases e2 : cp < 2048
    · rw [if_pos e2]
      simp only [List.cons_append, List.nil_append]
      rw [utf8Decode.eq_def]
      dsimp only
      rw [if_neg (by omega), if_neg (by omega), if_pos (by omega),
        if_pos (by constructor <;> omega)]
      have key : (192 + cp / 64 - 192) * 64 + (128 + cp % 64 - 128) = cp := by omega
      rw [key, if_pos (by omega), hr]
      rfl
    · rw [if_neg e2]
      by_cases e3 : cp < 65536
      · rw [if_pos e3]
        simp only [List.cons_append, List.nil_append]
        rw [utf8Decode.eq_def]
        dsimp only
        rw [if_neg (by omega), if_neg (by omega), if_neg (by omega),
          if_pos (by omega), if_pos (by refine ⟨⟨?_, ?_⟩, ?_, ?_⟩ <;> omega)]
        have key : (224 + cp / 4096 - 224) * 4096 + (128 + cp / 64 % 64 - 128) * 64 +
            (128 + cp % 64 - 128) = cp := by omega
        rw [key, if_pos ⟨by omega, hsur⟩, hr]
        rfl
      · rw [if_neg e3]
        simp only [List.cons_append, List.nil_append]
        rw [utf8Decode.eq_def]
        dsimp only
        rw [if_neg (by omega), if_neg (by omega), if_neg (by omega),
          if_neg (by omega), if_pos (by omega),
          if_pos (by refine ⟨⟨?_, ?_⟩, ⟨?_, ?_⟩, ?_, ?_⟩ <;> omega)]
        have key : (240 + cp / 262144 - 240) * 262144 + (128 + cp / 4096 % 64 - 128) * 4096 +
            (128 + cp / 64 % 64 - 128) * 64 + (128 + cp % 64 - 128) = cp := by omega
        rw [key, if_pos ⟨by omega, by omega⟩, hr]
        rfl

theorem utf8Decode_complete :
    ∀ cps bs : List Nat, (∀ cp ∈ cps, isScalarValue cp) →
      (cps.map utf8EncodeChar).flatten = bs → utf8Decode bs = some cps := by
  intro cps
  induction cps with
  | nil =>
      intro bs _ henc
      rw [← henc]
      simp only [List.map_nil, List.flatten_nil]
      exact utf8Decode.eq_1
  | cons cp cps ih =>
      intro bs hall henc
      rw [← henc]
      simp only [List.map_cons, List.flatten_cons]
      exact utf8Decode_encodeChar cp (hall cp (by simp)) _ _
        (ih _ (fun c hc => hall c (by simp [hc])) rfl)

/-! ## Claims -/

/-- Claim C1: for every legally constructed chunk — built by `Chunk.new`
from a type code (whose 4 bytes are ASCII letters, as any legally
constructed type code's are) and a payload of at most `2 ^ 32 - 1` bytes,
or obtained from a successful parse of a byte buffer — parsing the bytes
of `as_bytes` succeeds and yields a chunk equal to the original (hence
equal in length, type code, payload and checksum). -/
theorem c1_parse_serialize_roundtrip :
    (∀ (ct : ChunkType) (data : List Nat), ct.bytes.all isAsciiAlpha = true →
        data.length < 4294967296 →
        Chunk.tryFrom (Chunk.new ct data).as_bytes = .ok (Chunk.new ct data)) ∧
    (∀ (bs : List Nat) (c : Chunk), (∀ b ∈ bs, b < 256) →
        Chunk.tryFrom bs = .ok c →
        Chunk.tryFrom c.as_bytes = .ok c) := by
  constructor
  · intro ct data halpha hlen
    apply Chunk.tryFrom_as_bytes_of
    · show data.length % 4294967296 = data.length
      omega
    · show data.length % 4294967296 < 4294967296
      omega
    · exact halpha
    · rfl
  · intro bs c hb h
    obtain ⟨hlen, halpha, hcrc, hl4, h12⟩ := Chunk.tryFrom_ok_facts h
    have h32 : c.length < 4294967296 := by
      rw [hl4]
      exact fromBe4_lt (fun b hbm => hb b (List.mem_of_mem_take hbm))
    exact Chunk.tryFrom_as_bytes_of c hlen h32 halpha hcrc

/-- Witness for C1: the round trip at the concrete chunk
`Chunk.new "RuSt" [1, 2, 3]` and at the chunk parsed from the source's
test vector. -/
theorem c1_parse_serialize_roundtrip_witness :
    Chunk.tryFrom (Chunk.new ⟨82, 117, 83, 116⟩ [1, 2, 3]).as_bytes =
        .ok (Chunk.new ⟨82, 117, 83, 116⟩ [1, 2, 3]) ∧
    Chunk.tryFrom (Chunk.mk 42 ⟨82, 117, 83, 116⟩ testMessageBytes 2882656334).as_bytes =
        .ok (Chunk.mk 42 ⟨82, 117, 83, 116⟩ testMessageBytes 2882656334) :=
  ⟨c1_parse_serialize_roundtrip.1 ⟨82, 117, 83, 116⟩ [1, 2, 3] (by decide) (by decide),
   c1_parse_serialize_roundtrip.2 testChunkBytes _ (by decide) (by decide)⟩

/-- Claim C2 (code bug): the claim says `Chunk::try_from` returns a value
on every input, including slices shorter than 4 bytes, and never panics.
The source instead calls `.expect(...)` on the length-field slice
conversion, which panics whenever fewer than 4 input bytes exist; the
model reaches the `panicked` outcome on such inputs. -/
theorem c2_short_input_panics :
    Chunk.tryFrom [] = .panicked ∧ Chunk.tryFrom [0] = .panicked ∧
      Chunk.tryFrom [0, 0, 0] = .panicked := by
  decide

/-- Claim C3: every chunk reachable through `Chunk.new` or through a
successful parse carries `crc` equal to CRC-32/ISO-HDLC of the type-code
bytes followed by the payload bytes. -/
theorem c3_checksum_invariant :
    (∀ (ct : ChunkType) (data : List Nat),
        (Chunk.new ct data).crc = crc32 (Chunk.get_bytes_for_crc ct data)) ∧
    (∀ (bs : List Nat) (c : Chunk), Chunk.tryFrom bs = .ok c →
        c.crc = crc32 (Chunk.get_bytes_for_crc c.chunk_type c.data)) :=
  ⟨fun _ _ => rfl, fun _ _ h => (Chunk.tryFrom_ok_facts h).2.2.1⟩

/-- Witness for C3: the invariant at the chunk parsed from the source's
valid test vector. -/
theorem c3_checksum_invariant_witness :
    (Chunk.mk 42 ⟨82, 117, 83, 116⟩ testMessageBytes 2882656334).crc =
      crc32 (Chunk.get_bytes_for_crc ⟨82, 117, 83, 116⟩ testMessageBytes) :=
  c3_checksum_invariant.2 testChunkBytes _ (by decide)

/-- Claim C4: on the valid test buffer (big-endian 42, `"RuSt"`, the
42-byte message, big-endian 2882656334) parsing succeeds and the
resulting chunk's checksum is 2882656334. -/
theorem c4_valid_chunk_from_bytes :
    Chunk.tryFrom testChunkBytes =
        .ok (Chunk.mk 42 ⟨82, 117, 83, 116⟩ testMessageBytes 2882656334) ∧
    (Chunk.mk 42 ⟨82, 117, 83, 116⟩ testMessageBytes 2882656334).crc = 2882656334 := by
  decide

/-- Claim C5: on the same buffer with trailing checksum field 2882656333,
parsing fails with the checksum-mismatch error. -/
theorem c5_invalid_chunk_from_bytes :
    Chunk.tryFrom testChunkBytesBadCrc = .err .checksumMismatch := by
  decide

/-- Claim C6 counterexample: the 8-byte buffer `[0,0,0,5,48,48,48,48]`
contains the 4-byte length field (declaring 5) and the 4-byte type field
but fewer bytes than the declared length demands, yet parsing reports
`invalidType` — the non-alphabetic type bytes `"0000"` are rejected
before the truncation is noticed — not `truncated` as the claim states. -/
theorem c6_counterexample :
    ([0, 0, 0, 5, 48, 48, 48, 48] : List Nat).length = 8 ∧
    fromBe4 (([0, 0, 0, 5, 48, 48, 48, 48] : List Nat).take 4) = 5 ∧
    Chunk.tryFrom [0, 0, 0, 5, 48, 48, 48, 48] = .err .invalidType ∧
    Chunk.tryFrom [0, 0, 0, 5, 48, 48, 48, 48] ≠ .err .truncated := by
  decide

/-- Claim C6 (amended): for every input buffer that contains the 4-byte
length field and a 4-byte type field of ASCII-alphabetic bytes but
provides fewer bytes than the declared length demands for the payload
plus the 4-byte checksum, parsing fails with the `truncated` error. -/
theorem c6_truncated_amended (bs : List Nat) (h8 : 8 ≤ bs.length)
    (halpha : ((bs.drop 4).take 4).all isAsciiAlpha = true)
    (hshort : bs.length < 12 + fromBe4 (bs.take 4)) :
    Chunk.tryFrom bs = .err .truncated := by
  unfold Chunk.tryFrom
  rw [if_pos (by simp only [List.length_take]; omega)]
  rw [if_pos (by simp only [List.length_take, List.length_drop]; omega)]
  obtain ⟨ct, hct⟩ := ChunkType.tryFrom_of_len4_alpha
    (by simp only [List.length_take, List.length_drop]; omega) halpha
  rw [hct]
  exact Chunk.parseAfterType_truncated (by simp only [List.length_drop]; omega)

/-- Witness for the amended C6: an 8-byte buffer declaring length 5 with
type `"RuSt"` is reported truncated. -/
theorem c6_truncated_amended_witness :
    Chunk.tryFrom [0, 0, 0, 5, 82, 117, 83, 116] = .err .truncated :=
  c6_truncated_amended _ (by decide) (by decide) (by decide)

/-- Claim C7: serialization emits exactly the big-endian length bytes,
the 4 type-code bytes, the payload and the big-endian checksum bytes,
12 + payload-length bytes in total. -/
theorem c7_as_bytes_layout (c : Chunk) :
    c.as_bytes =
        u32ToBeBytes c.length ++ c.chunk_type.bytes ++ c.data ++ u32ToBeBytes c.crc ∧
    c.as_bytes.length = 12 + c.data.length := by
  refine ⟨rfl, ?_⟩
  simp only [Chunk.as_bytes, u32ToBeBytes, ChunkType.bytes, List.length_append,
    List.length_cons, List.length_nil]
  omega

/-- Claim C8 counterexample: `Chunk::new` computes the length field as
`data.len() as u32`, so on a payload of exactly `2 ^ 32` bytes the stored
length is 0, not the payload's byte count. -/
theorem c8_counterexample :
    (Chunk.new ⟨82, 117, 83, 116⟩ (List.replicate 4294967296 0)).length ≠
      (List.replicate 4294967296 (0 : Nat)).length := by
  have gen : ∀ d : List Nat, d.length = 4294967296 →
      (Chunk.new ⟨82, 117, 83, 116⟩ d).length ≠ d.length := by
    intro d hd
    show d.length % 4294967296 ≠ d.length
    rw [hd]
    omega
  exact gen _ (List.length_replicate _ _)

/-- Claim C8 (amended): for every chunk built by `Chunk.new` from a
payload of at most `2 ^ 32 - 1` bytes, and for every chunk obtained from
a successful parse, the stored length field equals the payload's byte
count. -/
theorem c8_length_eq_payload_amended :
    (∀ (ct : ChunkType) (data : List Nat), data.length < 4294967296 →
        (Chunk.new ct data).length = data.length) ∧
    (∀ (bs : List Nat) (c : Chunk), Chunk.tryFrom bs = .ok c →
        c.length = c.data.length) := by
  constructor
  · intro ct data h
    show data.length % 4294967296 = data.length
    omega
  · intro bs c h
    exact (Chunk.tryFrom_ok_facts h).1

/-- Witness for the amended C8: at a 2-byte payload and at the chunk
parsed from the source's valid test vector. -/
theorem c8_length_eq_payload_amended_witness :
    (Chunk.new ⟨82, 117, 83, 116⟩ [9, 9]).length = 2 ∧
    (Chunk.mk 42 ⟨82, 117, 83, 116⟩ testMessageBytes 2882656334).length =
      testMessageBytes.length :=
  ⟨c8_length_eq_payload_amended.1 ⟨82, 117, 83, 116⟩ [9, 9] (by decide),
   c8_length_eq_payload_amended.2 testChunkBytes _ (by decide)⟩

/-- Claim C9: `data_as_string` succeeds exactly on valid UTF-8 payloads:
it returns the decoded text if and only if the payload is the standard
UTF-8 encoding of a sequence of Unicode scalar values, and fails
otherwise (the chunk itself, a pure value here, is untouched either
way). -/
theorem c9_data_as_string_utf8 (c : Chunk) :
    (∀ cps : List Nat, c.data_as_string = some cps ↔
        ((∀ cp ∈ cps, isScalarValue cp) ∧ (cps.map utf8EncodeChar).flatten = c.data)) ∧
    ((∃ cps : List Nat, c.data_as_string = some cps) ↔ ValidUtf8 c.data) := by
  constructor
  · intro cps
    constructor
    · intro h
      exact utf8Decode_sound c.data.length c.data le_rfl cps h
    · rintro ⟨hall, henc⟩
      exact utf8Decode_complete cps c.data hall henc
  · constructor
    · rintro ⟨cps, h⟩
      obtain ⟨hall, henc⟩ := utf8Decode_sound c.data.length c.data le_rfl cps h
      exact ⟨cps, hall, henc⟩
    · rintro ⟨cps, hall, henc⟩
      exact ⟨cps, utf8Decode_complete cps c.data hall henc⟩

/-- Claim C10: parsing does not require the buffer to be exactly
consumed: whenever a buffer parses to a chunk, the same buffer with any
extra trailing bytes appended parses to the same chunk — the trailing
bytes are silently ignored. -/
theorem c10_trailing_ignored (pre extra : List Nat) (c : Chunk)
    (h : Chunk.tryFrom pre = .ok c) :
    Chunk.tryFrom (pre ++ extra) = .ok c :=
  Chunk.tryFrom_append extra h

/-- Witness for C10: the valid test vector still parses to the same chunk
with three junk bytes appended. -/
theorem c10_trailing_ignored_witness :
    Chunk.tryFrom (testChunkBytes ++ [255, 0, 7]) =
      .ok (Chunk.mk 42 ⟨82, 117, 83, 116⟩ testMessageBytes 2882656334) :=
  c10_trailing_ignored testChunkBytes [255, 0, 7] _ (by decide)

end Pngme
